import Mathlib

/-!
Verification of the Adaptive Radix Tree implementation in `src/art.c` /
`src/art.h` of the artc repository.

The development is a shallow embedding of the C code.  Conventions:

* A C `char` is modelled as an `Int` carrying the signed-char value
  (all key bytes produced by real C strings lie in `[-128, 127]`; ASCII
  keys are non-negative).  `unsigned char` values are modelled as `Int`
  (or `Nat` where the C type is `unsigned char` throughout, as in the
  `keys` table of `Node48`).
* A C string (`char *key`) is modelled as the list of its bytes before
  the terminating NUL.  Reading `key[i]` at `i = strlen(key)` yields the
  terminator `0`; this is what `byteAt` returns out of range.  (Reads
  past the terminator are undefined behaviour in C; the model returns
  `0` there, and no theorem below depends on such a read.)
* `malloc`ed memory that the code never initialises is modelled by
  explicit parameters: `makeLeafNode` sets only `type`, `key` and
  `value`, so a leaf's header `prefixLen` / header byte array are
  uninitialised garbage.  They are carried as the `hp` / `hpl` fields of
  the `leaf` constructor and quantified over in the theorems.
* In `Node4`/`Node16` only `keys[0..count)` / `children[0..count)` are
  ever read or shifted by the code, so those arrays are modelled by
  lists of length `count` (the `count` field is the list length).
  `Node48.keys` has all 256 entries (value `0xFF = 255` marks empty)
  and `Node48.children` has 48 entries; `Node256.children` has 256.
* Allocation results are modelled by an explicit `alloc : Bool`
  argument where a claim is about allocation failure (`grow`); the
  insertion path assumes allocation succeeds.
* Loops that are not structurally recursive carry an explicit fuel
  argument; every fuel value used below strictly exceeds the number of
  iterations the corresponding C loop can perform on the inputs
  considered, except where noted (a saturated `Node48` drives
  `addChild` into a cycle in C; the model returns the node unchanged
  when fuel runs out).
-/

namespace ARTC

/-- The value attached to a leaf (an opaque caller-owned buffer in C). -/
abbrev Val := Nat

/-- Read byte `i` of a C string / byte buffer: in range it is the stored
byte, at index `length` it is the NUL terminator `0`; negative or
far out-of-range reads (undefined behaviour in C) also return `0`. -/
def byteAt (l : List Int) (i : Int) : Int :=
  if i < 0 then 0 else l.getD i.toNat 0

/-- Value of a `char` after conversion to `unsigned char` (C cast). -/
def uByte (b : Int) : Int := b % 256

/-- The node family of art.h: the four internal variants and the leaf,
all sharing the common header (compressed-path bytes `pfx` and
`prefixLen`).  For a leaf the header fields `hp`/`hpl` are the
uninitialised garbage left by `makeLeafNode` (which sets only `type`,
`key` and `value`). -/
inductive Node where
  | leaf (hp : List Int) (hpl : Int) (key : List Int) (value : Val)
  | node4 (pfx : List Int) (prefixLen : Int) (keys : List Int) (children : List Node)
  | node16 (pfx : List Int) (prefixLen : Int) (keys : List Int) (children : List Node)
  | node48 (pfx : List Int) (prefixLen : Int) (keys : List Nat) (children : List (Option Node))
  | node256 (pfx : List Int) (prefixLen : Int) (children : List (Option Node))

/-- The ART handle of art.h: root pointer and size counter. -/
structure ART where
  root : Option Node
  size : Nat

/-- `initializeAdaptiveRadixTree` of art.c: `tree->root = NULL; tree->size = 0;`. -/
def initializeAdaptiveRadixTree : ART := ⟨none, 0⟩

/-- Header `prefix` bytes of a node (for a leaf: the uninitialised garbage). -/
def hdrPfx : Node → List Int
  | .leaf hp _ _ _ => hp
  | .node4 p _ _ _ => p
  | .node16 p _ _ _ => p
  | .node48 p _ _ _ => p
  | .node256 p _ _ => p

/-- Header `prefixLen` of a node (for a leaf: the uninitialised garbage). -/
def hdrPrefixLen : Node → Int
  | .leaf _ l _ _ => l
  | .node4 _ l _ _ => l
  | .node16 _ l _ _ => l
  | .node48 _ l _ _ => l
  | .node256 _ l _ => l

/-- `node->type != LEAF`. -/
def isInternal : Node → Bool
  | .leaf _ _ _ _ => false
  | _ => true

/-- The list of (non-null) children of a node, across all variants. -/
def childrenList : Node → List Node
  | .leaf _ _ _ _ => []
  | .node4 _ _ _ cs => cs
  | .node16 _ _ _ cs => cs
  | .node48 _ _ _ cs => cs.filterMap id
  | .node256 _ _ cs => cs.filterMap id

/-- The populated `keys` array of a root `Node4`, if the root is one
(observer used to state facts about trees the code builds). -/
def node4Keys : Option Node → Option (List Int)
  | some (.node4 _ _ ks _) => some ks
  | _ => none

/-- `makeLeafNode(key, value)` of art.c: allocates a leaf, sets `type`,
copies `key` and `value`; the header `prefix`/`prefixLen` are left
uninitialised (`ghp`, `ghpl`). -/
def makeLeafNode (ghp : List Int) (ghpl : Int) (key : List Int) (value : Val) : Node :=
  .leaf ghp ghpl key value

/-- `makeNode4()` of art.c: `type = NODE4`, `prefixLen = 0`, all four
`keys` slots zeroed, all children NULL, `count = 0`.  Only
`keys[0..count)` is ever read, so the model starts from empty lists
(the header `prefix` bytes are uninitialised and unread while
`prefixLen = 0`). -/
def makeNode4 : Node := .node4 [] 0 [] []

/-- `getPrefixLength(node)` of art.c: `INVALID (-1)` for NULL, else the
header `prefixLen`. -/
def getPrefixLength : Option Node → Int
  | none => -1
  | some n => hdrPrefixLen n

/-- `checkPrefix(node, key, depth)` of art.c on an explicit header:
`maxLength = MIN(prefixLen, strlen(key) - depth)`, then count the
matching bytes of `node->prefix` against `key[depth + i]` for
`i < MIN(prefixLen, maxLength)`, stopping at the first mismatch.
(The model uses plain integer `min`; it agrees with the C `size_t`
arithmetic whenever `0 ≤ depth ≤ strlen(key)`, which holds at every
call site exercised below, for every value of a garbage `prefixLen`.) -/
def checkPrefixHdr (pfx : List Int) (plen : Int) (key : List Int) (depth : Int) : Int :=
  let bound := min plen ((key.length : Int) - depth)
  ((List.range bound.toNat).takeWhile
    (fun i => decide (byteAt pfx i = byteAt key (depth + i)))).length

/-- `checkPrefix(node, key, depth)` of art.c (reads the node header,
which for a leaf argument is the uninitialised garbage). -/
def checkPrefix (n : Node) (key : List Int) (depth : Int) : Int :=
  checkPrefixHdr (hdrPfx n) (hdrPrefixLen n) key depth

/-- `setPrefix(node, prefix, prefixLen)` of art.c: clamp the length to
`MAX_PREFIX_LENGTH = 32`, copy that many bytes from the source, store
the clamped length.  (When the clamped length is `< 32` the code also
writes a NUL terminator byte just past the copied bytes; no read ever
looks past `prefixLen`, so that byte is not represented.)  Returns the
new header pair. -/
def setPrefix (src : List Int) (plen : Int) : List Int × Int :=
  let plen' := if 32 < plen then 32 else plen
  (src.take plen'.toNat, plen')

/-- The `while (low <= high)` binary-search loop shared by the NODE4 and
NODE16 cases of `findChildBinary` in art.c, with explicit fuel.  The
interval shrinks by at least one element per iteration, so fuel
`keys.length + 1` (as supplied by `findChildBinary`) can never run out;
the `0` case is unreachable. -/
def binSearchF (ks : List Int) (cs : List Node) (b : Int) :
    Nat → Int → Int → Option Node
  | 0, _, _ => none
  | fuel + 1, low, high =>
    if low ≤ high then
      let mid := low + (high - low) / 2
      let midByte := byteAt ks mid
      if midByte < b then binSearchF ks cs b fuel (mid + 1) high
      else if b < midByte then binSearchF ks cs b fuel low (mid - 1)
      else cs.get? mid.toNat
    else none

/-- `findChildBinary(node, byte)` of art.c: binary search over the
populated `keys` prefix for NODE4/NODE16; for NODE48 read
`childIndex = keys[(unsigned char)byte]` and return
`children[childIndex]` when `childIndex < 48` (note: no `- 1`
adjustment and a `< 48` test rather than a comparison with the
`EMPTY_KEY` sentinel); for NODE256 return `children[byte]` (undefined
in C for a negative `char`; modelled as NULL). -/
def findChildBinary (n : Node) (b : Int) : Option Node :=
  match n with
  | .node4 _ _ ks cs => binSearchF ks cs b (ks.length + 1) 0 ((ks.length : Int) - 1)
  | .node16 _ _ ks cs => binSearchF ks cs b (ks.length + 1) 0 ((ks.length : Int) - 1)
  | .node48 _ _ ks cs =>
    let childIndex := ks.getD (uByte b).toNat 255
    if childIndex < 48 then cs.getD childIndex none else none
  | .node256 _ _ cs => if 0 ≤ b then cs.getD b.toNat none else none
  | .leaf _ _ _ _ => none

/-- `findChild(node, byte)` of art.c, portable (non-`__SSE2__`) build:
it is `findChildBinary`.  (The SSE path `findChildSSE` is an
alternative compiled only under `__SSE2__`.) -/
def findChild (n : Node) (b : Int) : Option Node := findChildBinary n b

/-- `search(node, key, depth)` of art.c, with explicit recursion fuel
(the C recursion descends one child per step and always terminates; the
fuel bounds the number of nested calls and `0` yields NULL, which below
is only relied on in theorems whose conclusion holds for every fuel or
that supply a sufficient budget).  NULL node yields NULL; a leaf is
returned iff `strcmp(leafNode->key, key) == 0`; otherwise the node's
compressed path must match exactly (`checkPrefix == getPrefixLength`),
the depth advances by `prefixLen`, and the search recurses into
`findChild(node, key[depth])` at `depth + 1`. -/
def searchF : Nat → Option Node → List Int → Int → Option Node
  | 0, _, _, _ => none
  | _ + 1, none, _, _ => none
  | fuel + 1, some n, key, depth =>
    match n with
    | .leaf _ _ k _ => if k = key then some n else none
    | _ =>
      let nodePrefixLength := getPrefixLength (some n)
      if checkPrefix n key depth ≠ nodePrefixLength then none
      else
        searchF fuel (findChild n (byteAt key (depth + nodePrefixLength))) key
          (depth + nodePrefixLength + 1)

/-- `isNodeFull(node)` of art.c: NODE4 full at `count == 4`, NODE16 at
`count == 16`; for NODE48 the code scans **all 256** `keys` entries and
reports full only when none equals `EMPTY_KEY (255)`; for NODE256 it
scans all 256 children and reports full only when none is NULL; NULL
and LEAF yield false. -/
def isNodeFull : Node → Bool
  | .node4 _ _ ks _ => ks.length == 4
  | .node16 _ _ ks _ => ks.length == 16
  | .node48 _ _ ks _ => ks.all (fun k => k != 255)
  | .node256 _ _ cs => cs.all Option.isSome
  | .leaf _ _ _ _ => false

/-- `findEmptyIndexForChildren(node48)` of art.c: index of the first
NULL slot among the 48 children, else `INVALID (-1)`, modelled as
`Option Nat`. -/
def findEmptyIndexForChildren (cs : List (Option Node)) : Option Nat :=
  cs.findIdx? Option.isNone

/-- `growFromNode4toNode16(nodePtr)` of art.c, with the outcome of the
`makeNode16()` allocation as `alloc`.  Returns the pair (C return
value, final `*nodePtr`): on allocation failure `(NULL, old)` with the
old node untouched; on success the header `prefix`/`prefixLen` is
copied, the populated `keys`/`children`/`count` are copied (the
`char → unsigned char → char` round trip in the copy loop is the
identity on char values), the old node is freed and `*nodePtr` is set
to the new NODE16. -/
def growFromNode4toNode16P (alloc : Bool) (old : Node) : Option Node × Node :=
  match old, alloc with
  | .node4 pfx plen ks cs, true =>
    let n16 := Node.node16 (pfx.take plen.toNat) plen ks cs
    (some n16, n16)
  | _, _ => (none, old)

/-- The population loop of `growFromNode16toNode48` in art.c: for each
populated `(key, child)` pair of the old NODE16, find the first empty
slot of the new NODE48 (failure aborts with NULL after freeing the new
node), then write `keys[(unsigned char)key] = slot + 1` and
`children[slot] = child`. -/
def grow16to48Loop :
    List (Int × Node) → List Nat → List (Option Node) →
      Option (List Nat × List (Option Node))
  | [], ks48, cs48 => some (ks48, cs48)
  | (k, c) :: rest, ks48, cs48 =>
    match findEmptyIndexForChildren cs48 with
    | none => none
    | some slot =>
      grow16to48Loop rest (ks48.set (uByte k).toNat (slot + 1)) (cs48.set slot (some c))

/-- `growFromNode16toNode48(nodePtr)` of art.c, with the outcome of the
`makeNode48()` allocation as `alloc`.  Returns (C return value, final
`*nodePtr`).  `makeNode48` initialises all 256 `keys` entries to
`EMPTY_KEY (255)` and all 48 children to NULL; the population loop is
`grow16to48Loop`.  On any failure the old node is untouched. -/
def growFromNode16toNode48P (alloc : Bool) (old : Node) : Option Node × Node :=
  match old, alloc with
  | .node16 pfx plen ks cs, true =>
    match grow16to48Loop (ks.zip cs) (List.replicate 256 255) (List.replicate 48 none) with
    | none => (none, old)
    | some (ks48, cs48) =>
      let n48 := Node.node48 (pfx.take plen.toNat) plen ks48 cs48
      (some n48, n48)
  | _, _ => (none, old)

/-- `growFromNode48toNode256(node)` of art.c (this one takes the node by
value and does not update the caller's pointer), with the outcome of
the `makeNode256()` allocation as `alloc`.  For each byte `i` with
`keys[i] != EMPTY_KEY` the new child `children256[i]` is read from
`children48[keys[i]]` — **without** subtracting the `+ 1` that
`growFromNode16toNode48` added when it wrote the index (an index `≥ 48`
would be an out-of-bounds read in C; modelled as NULL). -/
def growFromNode48toNode256 (alloc : Bool) (old : Node) : Option Node :=
  match old, alloc with
  | .node48 pfx plen ks cs, true =>
    some (.node256 (pfx.take plen.toNat) plen
      ((List.range 256).map (fun i =>
        if ks.getD i 255 ≠ 255 then cs.getD (ks.getD i 255) none else none)))
  | _, _ => none

/-- `grow(node)` of art.c (dispatch on the variant), with the allocation
outcome as `alloc`.  Returns the pair (C return value, final `*node`):
for NODE4/NODE16 the pointer is updated by the callee on success; for
NODE48 the callee takes the node by value, so `*node` is unchanged even
on success (the caller is expected to use the return value); NODE256
and LEAF cannot grow and return NULL. -/
def grow (alloc : Bool) (n : Node) : Option Node × Node :=
  match n with
  | .node4 _ _ _ _ => growFromNode4toNode16P alloc n
  | .node16 _ _ _ _ => growFromNode16toNode48P alloc n
  | .node48 _ _ _ _ => (growFromNode48toNode256 alloc n, n)
  | _ => (none, n)

/-- Insert element `a` at position `i` of `xs` by shifting the tail one
slot to the right — the effect of the shift loops in `addChildToNode4`
and `addChildToNode16` (`i ≤ xs.length` at every use). -/
def insertAt (xs : List α) (i : Nat) (a : α) : List α :=
  xs.take i ++ a :: xs.drop i

/-- `addChild(parentNode, keyChar, childNode)` of art.c together with
the four per-variant bodies it dispatches to, as one function (the
dispatcher reaches exactly the per-variant code; the named wrappers
`addChildToNode4` … below restate the variant bodies for reference).
The fuel bounds the grow-and-retry recursion: every dispatch consumes
one unit, and the grow-and-retry paths of the C code re-enter
`addChild` at most three times on any input whose `addChild` call
terminates (N4 → N16 → N48 → N256), so the fuel budget `addFuel = 16`
used by `insert` cannot run out on a terminating C path.  (On a
saturated NODE48, the C `addChildToNode48` grows without updating the
caller's pointer and re-enters itself forever; the model returns the
node unchanged when fuel runs out.)  NODE4/NODE16: when not full,
insert sorted by shifting (note: even when `keyChar` is already
present, a duplicate entry is inserted); when full, grow and retry on
the final `*parentNode` value.  NODE48: if `keys[(unsigned char)
keyChar] != EMPTY_KEY` take a fresh slot (writing `keys[…] = slot`
without the `+ 1` used by grow) or, with no free slot, grow and retry;
otherwise the code reads `childIndex = keys[…] ( = EMPTY_KEY = 255)`
and writes `children[255]` — an out-of-bounds write in C, modelled as a
lost write (`List.set` out of range is the identity).  NODE256: set the
slot only if it is NULL.  LEAF: the C code returns NULL and mutates
nothing. -/
def addChild : Nat → Node → Int → Node → Node
  | 0, parent, _, _ => parent
  | fuel + 1, parent, keyChar, child =>
    match parent with
    | .node4 pfx plen ks cs =>
      if ks.length < 4 then
        let position := (ks.takeWhile (fun k => decide (k < keyChar))).length
        .node4 pfx plen (insertAt ks position keyChar) (insertAt cs position child)
      else
        addChild fuel (grow true parent).2 keyChar child
    | .node16 pfx plen ks cs =>
      if ks.length < 16 then
        let position := (ks.takeWhile (fun k => decide (k < keyChar))).length
        .node16 pfx plen (insertAt ks position keyChar) (insertAt cs position child)
      else
        match (grow true parent).1 with
        | none => parent
        | some grown => addChild fuel grown keyChar child
    | .node48 pfx plen ks cs =>
      let index := (uByte keyChar).toNat
      if ks.getD index 255 ≠ 255 then
        match findEmptyIndexForChildren cs with
        | some slot => .node48 pfx plen (ks.set index slot) (cs.set slot (some child))
        | none => addChild fuel (grow true parent).2 keyChar child
      else
        let childIndex := ks.getD index 255
        .node48 pfx plen ks (cs.set childIndex (some child))
    | .node256 pfx plen cs =>
      let index := (uByte keyChar).toNat
      if (cs.getD index none).isNone then .node256 pfx plen (cs.set index (some child))
      else parent
    | .leaf _ _ _ _ => parent

/-- The fuel budget `insert` passes to the `addChild` family (see
`addChild`: any terminating C call chain uses at most four dispatches). -/
def addFuel : Nat := 16

/-- `addChildToNode4(parentNode, keyChar, childNode)` of art.c: when not
full, find the first position whose key is not `< keyChar`, shift
keys/children right, store the pair, bump `count`; when full,
`grow(&parentNode)` (which rebinds the local `parentNode` to the new
NODE16) then `addChild` on it.  Stated via the merged recursion
`addChild` for the retry. -/
def addChildToNode4 (fuel : Nat) (parent : Node) (keyChar : Int) (child : Node) : Node :=
  match parent with
  | .node4 pfx plen ks cs =>
    if ks.length < 4 then
      let position := (ks.takeWhile (fun k => decide (k < keyChar))).length
      .node4 pfx plen (insertAt ks position keyChar) (insertAt cs position child)
    else
      addChild fuel (grow true parent).2 keyChar child
  | _ => parent

/-- `addChildToNode16(parentNode, keyChar, childNode)` of art.c: like
`addChildToNode4` with capacity 16; when full the code assigns
`parentNode = grow(&parentNode)` (the *return value*, NULL on failure)
before retrying. -/
def addChildToNode16 (fuel : Nat) (parent : Node) (keyChar : Int) (child : Node) : Node :=
  match parent with
  | .node16 pfx plen ks cs =>
    if ks.length < 16 then
      let position := (ks.takeWhile (fun k => decide (k < keyChar))).length
      .node16 pfx plen (insertAt ks position keyChar) (insertAt cs position child)
    else
      match (grow true parent).1 with
      | none => parent
      | some grown => addChild fuel grown keyChar child
  | _ => parent

/-- The fuel budget `insert` uses for its top-level loop: the loop
either returns or replaces the node by a strictly larger variant
(N4 → N16 → N48 → N256), so at most four iterations happen and the
budget of 5 cannot run out. -/
def insertLoopFuel : Nat := 5

/-- The `while (node != NULL)` loop of `insert` in art.c, acting on the
current node (the loop never descends, so `node == *root` and
`parentPointer == root` throughout; the returned value is the final
`*root`, i.e. the new tree state).  Branches, as in the source:

* LEAF with equal key (`strcmp == 0`): return with the tree unchanged.
* LEAF with a different key: make a fresh NODE4; set its prefix from
  `checkPrefix((Node *)leafNode, key, depth)` — which reads the leaf's
  **uninitialised** header — copying that many bytes of `key`
  (`setPrefix(newNode4, key, commonPrefixLength)`); add the existing
  leaf keyed by `leafNode->key[depth]` and a fresh leaf keyed by
  `key[depth]` (both at `depth`, not `depth + lcp`); install the NODE4
  as the new root.
* Internal and full: `grow(&node)`; on failure return NULL with the
  tree unchanged, else update the root to the grown node and loop.
* Internal and not full: `addChild(node, key[depth], makeLeafNode(key,
  value))` and return.

`ghp`/`ghpl` model the uninitialised header of any leaf this call
allocates (at most one leaf is created per call). -/
def insertLoopF : Nat → Node → List Int → Val → Int → List Int → Int → Option Node
  | 0, node, _, _, _, _, _ => some node
  | fuel + 1, node, key, value, depth, ghp, ghpl =>
    match node with
    | .leaf _ _ k _ =>
      if k = key then some node
      else
        let commonPrefixLength := checkPrefix node key depth
        let hdr := setPrefix key commonPrefixLength
        let n1 := addChildToNode4 addFuel (Node.node4 hdr.1 hdr.2 [] [])
          (byteAt k depth) node
        let n2 := addChildToNode4 addFuel n1 (byteAt key depth)
          (makeLeafNode ghp ghpl key value)
        some n2
    | _ =>
      if isNodeFull node then
        match (grow true node).1 with
        | none => some node
        | some grownNode => insertLoopF fuel grownNode key value depth ghp ghpl
      else
        some (addChild addFuel node (byteAt key depth) (makeLeafNode ghp ghpl key value))

/-- `insert(root, key, value, depth)` of art.c as a state transformer on
the tree root: a NULL root becomes a fresh leaf, otherwise the loop
`insertLoopF` runs on the root node.  The result is the final `*root`. -/
def insertRoot (root : Option Node) (key : List Int) (value : Val) (depth : Int)
    (ghp : List Int) (ghpl : Int) : Option Node :=
  match root with
  | none => some (makeLeafNode ghp ghpl key value)
  | some n => insertLoopF insertLoopFuel n key value depth ghp ghpl

/-- Tree-level insertion as the repository exercises it: every caller
(see tests/art_unit_tests.c etc.) invokes `insert(&(art->root), key,
value, 0)`.  No statement anywhere in art.c updates `art->size`. -/
def treeInsert (t : ART) (key : List Int) (value : Val)
    (ghp : List Int) (ghpl : Int) : ART :=
  { root := insertRoot t.root key value 0 ghp ghpl, size := t.size }

/-- One insert operation of a test scenario: the key and value passed to
`insert`, plus the uninitialised header bytes of the leaf the call may
allocate. -/
structure InsOp where
  key : List Int
  value : Val
  ghp : List Int
  ghpl : Int

/-- The tree state after running a sequence of `insert(&root, key,
value, 0)` calls from an empty tree. -/
def insertSeq (ops : List InsOp) : Option Node :=
  ops.foldl (fun r op => insertRoot r op.key op.value 0 op.ghp op.ghpl) none

/-- Every leaf reachable from the node satisfies `P` on its stored key
(the children of NODE48/NODE256 are the non-NULL slots). -/
inductive AllLeaf (P : List Int → Prop) : Node → Prop where
  | leaf : ∀ hp hpl k v, P k → AllLeaf P (.leaf hp hpl k v)
  | node4 : ∀ pfx plen ks cs, (∀ c ∈ cs, AllLeaf P c) → AllLeaf P (.node4 pfx plen ks cs)
  | node16 : ∀ pfx plen ks cs, (∀ c ∈ cs, AllLeaf P c) → AllLeaf P (.node16 pfx plen ks cs)
  | node48 : ∀ pfx plen ks cs, (∀ c ∈ cs.filterMap id, AllLeaf P c) →
      AllLeaf P (.node48 pfx plen ks cs)
  | node256 : ∀ pfx plen cs, (∀ c ∈ cs.filterMap id, AllLeaf P c) →
      AllLeaf P (.node256 pfx plen cs)

/-- `AllLeaf` lifted to a possibly-NULL root. -/
def AllLeafOpt (P : List Int → Prop) : Option Node → Prop
  | none => True
  | some n => AllLeaf P n

/-! ### Concrete instances used in claim statements -/

/-- The `index[byte]` entry of a NODE48 (observer for stating facts
about grown nodes). -/
def n48Index (n : Node) (b : Nat) : Nat :=
  match n with
  | .node48 _ _ ks _ => ks.getD b 255
  | _ => 0

/-- A NODE16 holding the single pair `('a' = 97, leaf)`. -/
def c4n16 : Node := .node16 [] 0 [97] [.leaf [] 0 [97] 1]

/-- The NODE48 that `growFromNode16toNode48` builds from `c4n16`: the
leaf goes to slot 0 and `index[97] = 0 + 1 = 1`. -/
def c4n48 : Node :=
  .node48 [] 0 ((List.replicate 256 255).set 97 1)
    ((List.replicate 48 none).set 0 (some (.leaf [] 0 [97] 1)))

/-- A leaf used as a child in the fullness-predicate instances. -/
def c8leaf : Node := .leaf [] 0 [120] 9

/-- A NODE48 whose 48 `children` slots are all occupied and whose
`index` maps bytes `0 … 47` to those slots (using the `slot + 1`
convention); the other 208 `index` entries are the empty sentinel. -/
def c8n48 : Node :=
  .node48 [] 0 ((List.range 256).map (fun i => if i < 48 then i + 1 else 255))
    (List.replicate 48 (some c8leaf))

/-- The populated keys of an N4 or N16 are strictly ascending. -/
def strictlyAscending (ks : List Int) : Prop := List.Chain' (· < ·) ks

/-! ### Basic unfolding lemmas -/

/-- `checkPrefix` on a leaf header with the empty key at depth 0 matches
zero bytes, whatever garbage the header holds: the loop bound
`MIN(prefixLen, strlen("") - 0)` is at most 0. -/
theorem checkPrefix_leaf_nil (hp : List Int) (hpl : Int) (k : List Int) (v : Val) :
    checkPrefix (.leaf hp hpl k v) ([] : List Int) 0 = 0 := by
  have h : (min hpl (0 : Int)).toNat = 0 := Int.toNat_of_nonpos (min_le_right hpl 0)
  simp [checkPrefix, checkPrefixHdr, hdrPfx, hdrPrefixLen, h]

/-- Unfolding `insertLoopF` on a leaf whose key equals the inserted key:
the tree is returned unchanged (the `strcmp == 0` branch). -/
theorem insertLoopF_leaf_dup (fuel : Nat) (hp ghp : List Int) (hpl ghpl d : Int)
    (k : List Int) (v v' : Val) :
    insertLoopF (fuel + 1) (.leaf hp hpl k v) k v' d ghp ghpl
      = some (.leaf hp hpl k v) := by
  show (if k = k then some (Node.leaf hp hpl k v) else _) = _
  rw [if_pos rfl]

/-- Unfolding `insertLoopF` on a leaf with a different key: the
leaf-split branch, producing the new NODE4 described in the source. -/
theorem insertLoopF_leaf_split (fuel : Nat) (hp ghp : List Int) (hpl ghpl d : Int)
    (k key : List Int) (v value : Val) (hne : k ≠ key) :
    insertLoopF (fuel + 1) (.leaf hp hpl k v) key value d ghp ghpl
      = some (addChildToNode4 addFuel
          (addChildToNode4 addFuel
            (Node.node4 (setPrefix key (checkPrefix (.leaf hp hpl k v) key d)).1
              (setPrefix key (checkPrefix (.leaf hp hpl k v) key d)).2 [] [])
            (byteAt k d) (.leaf hp hpl k v))
          (byteAt key d) (makeLeafNode ghp ghpl key value)) := by
  show (if k = key then some (Node.leaf hp hpl k v) else _) = _
  rw [if_neg hne]

/-- Unfolding `insertLoopF` on a non-full internal node: the inserted
leaf is attached to this very node, keyed by `key[depth]`. -/
theorem insertLoopF_internal_notfull (fuel : Nat) (n : Node) (key : List Int)
    (value : Val) (d : Int) (ghp : List Int) (ghpl : Int)
    (hInt : isInternal n = true) (hFull : isNodeFull n = false) :
    insertLoopF (fuel + 1) n key value d ghp ghpl
      = some (addChild addFuel n (byteAt key d) (makeLeafNode ghp ghpl key value)) := by
  cases n with
  | leaf hp hpl k v => simp [isInternal] at hInt
  | node4 pfx plen ks cs =>
    show (if isNodeFull (.node4 pfx plen ks cs) then _ else _) = _
    rw [hFull]
    simp
  | node16 pfx plen ks cs =>
    show (if isNodeFull (.node16 pfx plen ks cs) then _ else _) = _
    rw [hFull]
    simp
  | node48 pfx plen ks cs =>
    show (if isNodeFull (.node48 pfx plen ks cs) then _ else _) = _
    rw [hFull]
    simp
  | node256 pfx plen cs =>
    show (if isNodeFull (.node256 pfx plen cs) then _ else _) = _
    rw [hFull]
    simp

/-! ### Claim theorems (simple claims) -/

/-- Claim C2 (code_bug evidence): after the first insert into a freshly
initialized tree the root has become the expected leaf, but the `size`
field is still `0`, not `1` — no statement in art.c ever updates
`size`. -/
theorem C2_size_stays_zero_after_first_insert :
    (treeInsert initializeAdaptiveRadixTree [116, 101, 115, 116] 1 [] 0).size = 0 ∧
    (treeInsert initializeAdaptiveRadixTree [116, 101, 115, 116] 1 [] 0).root
      = some (.leaf [] 0 [116, 101, 115, 116] 1) :=
  ⟨rfl, rfl⟩

/-- Claim C5 (counterexample): inserting key `"a"` with value `1` and
then again with value `2` leaves the single leaf holding the **prior**
value `1`, and lookup returns that leaf — the claim's
"replace value" policy does not hold (`1 ≠ 2`). -/
theorem C5_duplicate_insert_keeps_prior_value :
    insertRoot (insertRoot none [97] 1 0 [] 0) [97] 2 0 [] 0
      = some (.leaf [] 0 [97] 1) ∧
    searchF 8 (insertRoot (insertRoot none [97] 1 0 [] 0) [97] 2 0 [] 0) [97] 0
      = some (.leaf [] 0 [97] 1) ∧
    (1 : Val) ≠ 2 :=
  ⟨rfl, rfl, by decide⟩

/-- Claim C5 (amended): inserting a key equal to the key of the existing
root leaf leaves the tree unchanged — a single leaf for the key holding
the **prior** value — and a subsequent lookup returns that leaf. -/
theorem C5_duplicate_insert_is_noop (hp ghp : List Int) (hpl ghpl d : Int)
    (k : List Int) (v v' : Val) (fuel : Nat) :
    insertRoot (some (.leaf hp hpl k v)) k v' d ghp ghpl = some (.leaf hp hpl k v) ∧
    searchF (fuel + 1) (some (.leaf hp hpl k v)) k 0 = some (.leaf hp hpl k v) := by
  constructor
  · exact insertLoopF_leaf_dup 4 hp ghp hpl ghpl d k v v'
  · show (if k = k then some (Node.leaf hp hpl k v) else none) = _
    rw [if_pos rfl]

/-- Claim C9: when the allocation of the larger node fails
(`alloc = false`), both `growFromNode4toNode16` and
`growFromNode16toNode48` return NULL (the failure is propagated to the
caller) and the final `*nodePtr` is the old node, completely
unchanged — prefix, prefix length and child set included. -/
theorem C9_grow_alloc_failure_preserves_node (n : Node) :
    growFromNode4toNode16P false n = (none, n) ∧
    growFromNode16toNode48P false n = (none, n) := by
  refine ⟨?_, ?_⟩ <;> cases n <;> rfl

/-- Claim C10: calling `insert` on a tree whose root is a non-full
internal node attaches the fresh leaf directly to that root, keyed by
`key[depth]` with the caller's `depth` — the loop neither advances the
depth past the prefix nor descends into an existing child. -/
theorem C10_insert_attaches_leaf_at_root (n : Node) (key : List Int) (value : Val)
    (d : Int) (ghp : List Int) (ghpl : Int)
    (hInt : isInternal n = true) (hFull : isNodeFull n = false) :
    insertRoot (some n) key value d ghp ghpl
      = some (addChild addFuel n (byteAt key d) (makeLeafNode ghp ghpl key value)) :=
  insertLoopF_internal_notfull 4 n key value d ghp ghpl hInt hFull

/-- Witness for C10 at a concrete non-full NODE4 root. -/
theorem C10_insert_attaches_leaf_at_root_witness :
    isInternal (Node.node4 [] 0 [97] [.leaf [] 0 [97] 5]) = true ∧
    isNodeFull (Node.node4 [] 0 [97] [.leaf [] 0 [97] 5]) = false ∧
    insertRoot (some (Node.node4 [] 0 [97] [.leaf [] 0 [97] 5])) [98] 7 0 [] 0
      = some (addChild addFuel (Node.node4 [] 0 [97] [.leaf [] 0 [97] 5])
          (byteAt [98] 0) (makeLeafNode [] 0 [98] 7)) :=
  ⟨rfl, rfl, C10_insert_attaches_leaf_at_root _ [98] 7 0 [] 0 rfl rfl⟩

/-- Claim C4 (code_bug evidence): before growth, `findChildBinary` on
the NODE16 maps byte 97 to the leaf.  `growFromNode16toNode48` does
write `index[97] = slot + 1 = 1` as the claim states, but
`findChildBinary` on the grown NODE48 reads `children[index[97]]`
**without** subtracting 1, i.e. `children[1]`, which is NULL — the
child set is not preserved by the growth. -/
theorem C4_grow16to48_breaks_find_child :
    findChildBinary c4n16 97 = some (.leaf [] 0 [97] 1) ∧
    growFromNode16toNode48P true c4n16 = (some c4n48, c4n48) ∧
    n48Index c4n48 97 = 1 ∧
    findChildBinary c4n48 97 = none :=
  ⟨rfl, rfl, rfl, rfl⟩

/-- Claim C8 (code_bug evidence): the fullness predicate is exact for
NODE4 (4 children) and NODE16 (16 children), and a full NODE256 indeed
cannot grow; but for a NODE48 with all **48** children slots occupied
`isNodeFull` still answers `false`, because the code demands all 256
`index` entries to be non-empty — so the claim's "N48 full exactly at
48 children" fails on the code. -/
theorem C8_isNodeFull_n48_wrong_at_48_children :
    isNodeFull (.node4 [] 0 [97, 98, 99, 100] (List.replicate 4 c8leaf)) = true ∧
    isNodeFull (.node4 [] 0 [97, 98, 99] (List.replicate 3 c8leaf)) = false ∧
    isNodeFull (.node16 [] 0 ((List.range 16).map (fun i => 97 + (i : Int)))
      (List.replicate 16 c8leaf)) = true ∧
    isNodeFull (.node16 [] 0 ((List.range 15).map (fun i => 97 + (i : Int)))
      (List.replicate 15 c8leaf)) = false ∧
    (List.replicate 48 (some c8leaf)).all Option.isSome = true ∧
    isNodeFull c8n48 = false ∧
    (grow true (.node256 [] 0 (List.replicate 256 (some c8leaf)))).1 = none :=
  ⟨rfl, rfl, rfl, rfl, rfl, rfl, rfl⟩

/-- Claim C3 (code_bug evidence): after inserting `"apple"` and then
`"appetite"` into an empty tree, the divergence NODE4's edge bytes are
`['a', 'a']` (both children are keyed by `key[depth]` at the original
depth 0) — for every value of the uninitialised leaf-header garbage the
split consults — and in particular neither edge `'l' (108)` nor
`'e' (101)` exists, contradicting the claimed `prefix "app"` /
edges `'l'`, `'e'` shape. -/
theorem C3_leaf_split_edges_are_both_a (hp1 hp2 : List Int) (hpl1 hpl2 : Int) :
    node4Keys (insertRoot (insertRoot none [97, 112, 112, 108, 101] 1 0 hp1 hpl1)
        [97, 112, 112, 101, 116, 105, 116, 101] 2 0 hp2 hpl2) = some [97, 97] ∧
    (108 : Int) ∉ ([97, 97] : List Int) ∧ (101 : Int) ∉ ([97, 97] : List Int) := by
  refine ⟨?_, by decide, by decide⟩
  show node4Keys (insertRoot (some (.leaf hp1 hpl1 [97, 112, 112, 108, 101] 1))
    [97, 112, 112, 101, 116, 105, 116, 101] 2 0 hp2 hpl2) = some [97, 97]
  rw [show insertRoot (some (.leaf hp1 hpl1 [97, 112, 112, 108, 101] 1))
        [97, 112, 112, 101, 116, 105, 116, 101] 2 0 hp2 hpl2
      = insertLoopF (4 + 1) (.leaf hp1 hpl1 [97, 112, 112, 108, 101] 1)
        [97, 112, 112, 101, 116, 105, 116, 101] 2 0 hp2 hpl2 from rfl,
    insertLoopF_leaf_split 4 hp1 hp2 hpl1 hpl2 0 [97, 112, 112, 108, 101]
      [97, 112, 112, 101, 116, 105, 116, 101] 1 2 (by decide)]
  rfl

/-- Claim C7 (code_bug evidence): inserting `"ab"` and then `"ac"` into
an empty tree produces (for every value of the unread garbage) a root
NODE4 whose populated keys are `[97, 97]` — the same edge byte twice —
which is not strictly ascending. -/
theorem C7_insert_breaks_sorted_keys (hp1 hp2 : List Int) (hpl1 hpl2 : Int) :
    node4Keys (insertRoot (insertRoot none [97, 98] 1 0 hp1 hpl1)
        [97, 99] 2 0 hp2 hpl2) = some [97, 97] ∧
    ¬ strictlyAscending [97, 97] := by
  refine ⟨?_, fun h => absurd (List.chain'_cons.mp h).1 (lt_irrefl 97)⟩
  show node4Keys (insertRoot (some (.leaf hp1 hpl1 [97, 98] 1)) [97, 99] 2 0 hp2 hpl2)
    = some [97, 97]
  have h1 := insertLoopF_leaf_split 4 hp1 hp2 hpl1 hpl2 0 [97, 98] [97, 99] 1 2 (by decide)
  rw [show insertRoot (some (.leaf hp1 hpl1 [97, 98] 1)) [97, 99] 2 0 hp2 hpl2
      = insertLoopF (4 + 1) (.leaf hp1 hpl1 [97, 98] 1) [97, 99] 2 0 hp2 hpl2 from rfl, h1]
  rfl

set_option maxHeartbeats 3200000 in
/-- Claim C1 (code_bug evidence): insert `"a"`, `""`, `"ab"`, `"ac"`,
then `"ad"` into an empty tree and immediately look up `"ad"`.  The
lookup returns not-found for every recursion budget and every value of
the uninitialised leaf headers: `insert` attached all five leaves flat
at the root keyed by `key[0]`, so the root NODE16 keys are
`[0, 97, 97, 97, 97]` and the binary search for byte 97 lands on the
leaf that stores `"ac"`, whose key comparison fails. -/
theorem C1_insert_then_lookup_returns_none (h1 h2 h3 h4 h5 : List Int)
    (l1 l2 l3 l4 l5 : Int) (fuel : Nat) :
    searchF fuel (insertSeq
      [⟨[97], 1, h1, l1⟩, ⟨[], 2, h2, l2⟩, ⟨[97, 98], 3, h3, l3⟩,
       ⟨[97, 99], 4, h4, l4⟩, ⟨[97, 100], 5, h5, l5⟩]) [97, 100] 0 = none := by
  have e2 : insertRoot (some (.leaf h1 l1 [97] 1)) [] 2 0 h2 l2
      = some (.node4 [] 0 [0, 97] [.leaf h2 l2 [] 2, .leaf h1 l1 [97] 1]) := by
    rw [show insertRoot (some (.leaf h1 l1 [97] 1)) [] 2 0 h2 l2
        = insertLoopF (4 + 1) (.leaf h1 l1 [97] 1) [] 2 0 h2 l2 from rfl,
      insertLoopF_leaf_split 4 h1 h2 l1 l2 0 [97] [] 1 2 (by decide),
      checkPrefix_leaf_nil]
    rfl
  have e3 : insertRoot (some (.node4 [] 0 [0, 97]
        [.leaf h2 l2 [] 2, .leaf h1 l1 [97] 1])) [97, 98] 3 0 h3 l3
      = some (.node4 [] 0 [0, 97, 97]
          [.leaf h2 l2 [] 2, .leaf h3 l3 [97, 98] 3, .leaf h1 l1 [97] 1]) := rfl
  have e4 : insertRoot (some (.node4 [] 0 [0, 97, 97]
        [.leaf h2 l2 [] 2, .leaf h3 l3 [97, 98] 3, .leaf h1 l1 [97] 1]))
        [97, 99] 4 0 h4 l4
      = some (.node4 [] 0 [0, 97, 97, 97]
          [.leaf h2 l2 [] 2, .leaf h4 l4 [97, 99] 4, .leaf h3 l3 [97, 98] 3,
           .leaf h1 l1 [97] 1]) := rfl
  have e5 : insertRoot (some (.node4 [] 0 [0, 97, 97, 97]
        [.leaf h2 l2 [] 2, .leaf h4 l4 [97, 99] 4, .leaf h3 l3 [97, 98] 3,
         .leaf h1 l1 [97] 1])) [97, 100] 5 0 h5 l5
      = some (.node16 [] 0 [0, 97, 97, 97, 97]
          [.leaf h2 l2 [] 2, .leaf h5 l5 [97, 100] 5, .leaf h4 l4 [97, 99] 4,
           .leaf h3 l3 [97, 98] 3, .leaf h1 l1 [97] 1]) := rfl
  simp only [insertSeq, List.foldl_cons, List.foldl_nil]
  rw [show insertRoot none [97] 1 0 h1 l1 = some (.leaf h1 l1 [97] 1) from rfl,
    e2, e3, e4, e5]
  rcases fuel with _ | _ | fuel <;> rfl

end ARTC

namespace ARTC

/-! ### Claim C6: lookup of an absent key is not-found -/

/-- A NULL node argument makes `search` return NULL at any budget. -/
theorem searchF_none_arg (fuel : Nat) (key : List Int) (d : Int) :
    searchF fuel none key d = none := by
  cases fuel <;> rfl

/-- A child delivered by the binary-search loop is one of the node's
children. -/
theorem binSearchF_mem {ks : List Int} {cs : List Node} {b : Int} :
    ∀ (fuel : Nat) (low high : Int) (c : Node),
      binSearchF ks cs b fuel low high = some c → c ∈ cs := by
  intro fuel
  induction fuel with
  | zero => intro low high c h; simp [binSearchF] at h
  | succ f ih =>
    intro low high c h
    simp only [binSearchF] at h
    split at h
    · split at h
      · exact ih _ _ _ h
      · split at h
        · exact ih _ _ _ h
        · exact List.get?_mem h
    · exact absurd h (by simp)

/-- A child delivered by `findChildBinary` is one of the node's
children. -/
theorem findChildBinary_mem {n : Node} {b : Int} {c : Node}
    (h : findChildBinary n b = some c) : c ∈ childrenList n := by
  cases n with
  | leaf hp hpl k v => simp [findChildBinary] at h
  | node4 pfx plen ks cs => exact binSearchF_mem _ _ _ _ h
  | node16 pfx plen ks cs => exact binSearchF_mem _ _ _ _ h
  | node48 pfx plen ks cs =>
    simp only [findChildBinary] at h
    split at h
    · rw [List.getD_eq_getElem?_getD] at h
      cases hg : cs[(ks.getD (uByte b).toNat 255)]? with
      | none => rw [hg] at h; simp at h
      | some x =>
        rw [hg] at h
        simp only [Option.getD_some] at h
        subst h
        show c ∈ cs.filterMap id
        exact List.mem_filterMap.mpr ⟨some c, List.getElem?_mem hg, rfl⟩
    · exact absurd h (by simp)
  | node256 pfx plen cs =>
    simp only [findChildBinary] at h
    split at h
    · rw [List.getD_eq_getElem?_getD] at h
      cases hg : cs[((b : Int).toNat)]? with
      | none => rw [hg] at h; simp at h
      | some x =>
        rw [hg] at h
        simp only [Option.getD_some] at h
        subst h
        show c ∈ cs.filterMap id
        exact List.mem_filterMap.mpr ⟨some c, List.getElem?_mem hg, rfl⟩
    · exact absurd h (by simp)

/-- A child delivered by `findChild` is one of the node's children. -/
theorem findChild_mem {n : Node} {b : Int} {c : Node}
    (h : findChild n b = some c) : c ∈ childrenList n :=
  findChildBinary_mem h

/-- `AllLeaf` passes to every child. -/
theorem allLeaf_child {P : List Int → Prop} {n c : Node}
    (h : AllLeaf P n) (hc : c ∈ childrenList n) : AllLeaf P c := by
  cases h with
  | leaf hp hpl k v hP => exact absurd hc (List.not_mem_nil c)
  | node4 pfx plen ks cs h => exact h c hc
  | node16 pfx plen ks cs h => exact h c hc
  | node48 pfx plen ks cs h => exact h c hc
  | node256 pfx plen cs h => exact h c hc

/-- One unfolding step of `search` on an internal node. -/
theorem searchF_internal_step (f : Nat) (n : Node) (key : List Int) (depth : Int)
    (hInt : isInternal n = true) :
    searchF (f + 1) (some n) key depth
      = if checkPrefix n key depth ≠ getPrefixLength (some n) then none
        else searchF f (findChild n (byteAt key (depth + getPrefixLength (some n)))) key
          (depth + getPrefixLength (some n) + 1) := by
  cases n <;> first | rfl | simp [isInternal] at hInt

/-- `search` can only answer "found" with a leaf whose key is the query:
if no leaf below the node stores the query key, the search returns
NULL, at every recursion budget. -/
theorem search_allLeaf_ne :
    ∀ (fuel : Nat) (n : Node) (key : List Int) (depth : Int),
      AllLeaf (fun k => k ≠ key) n → searchF fuel (some n) key depth = none := by
  intro fuel
  induction fuel with
  | zero => intro n key depth _; rfl
  | succ f ih =>
    intro n key depth hA
    by_cases hInt : isInternal n = true
    · rw [searchF_internal_step f n key depth hInt]
      split
      · rfl
      · cases hFC : findChild n (byteAt key (depth + getPrefixLength (some n))) with
        | none => exact searchF_none_arg f key _
        | some c => exact ih c key _ (allLeaf_child hA (findChild_mem hFC))
    · cases n with
      | leaf hp hpl k v =>
        have hk : k ≠ key := by cases hA; assumption
        show (if k = key then _ else none) = none
        rw [if_neg hk]
      | node4 pfx plen ks cs => exact absurd rfl hInt
      | node16 pfx plen ks cs => exact absurd rfl hInt
      | node48 pfx plen ks cs => exact absurd rfl hInt
      | node256 pfx plen cs => exact absurd rfl hInt

/-- Membership in an `insertAt` result comes from the old list or is the
new element. -/
theorem mem_insertAt {α : Type _} {x a : α} {xs : List α} {i : Nat}
    (h : x ∈ insertAt xs i a) : x ∈ xs ∨ x = a := by
  simp only [insertAt] at h
  rcases List.mem_append.mp h with h | h
  · exact Or.inl (List.take_subset _ _ h)
  · rcases List.mem_cons.mp h with h | h
    · exact Or.inr h
    · exact Or.inl (List.drop_subset _ _ h)

/-- Every occupied slot the NODE48-population loop produces holds either
an original occupant or one of the supplied children. -/
theorem grow16to48Loop_allLeaf {P : List Int → Prop} :
    ∀ (pairs : List (Int × Node)) (ks48 : List Nat) (cs48 : List (Option Node))
      (ks' : List Nat) (cs' : List (Option Node)),
      (∀ c : Node, some c ∈ cs48 → AllLeaf P c) →
      (∀ p ∈ pairs, AllLeaf P p.2) →
      grow16to48Loop pairs ks48 cs48 = some (ks', cs') →
      ∀ c : Node, some c ∈ cs' → AllLeaf P c := by
  intro pairs
  induction pairs with
  | nil =>
    intro ks48 cs48 ks' cs' hacc _ h c hc
    simp only [grow16to48Loop, Option.some.injEq, Prod.mk.injEq] at h
    obtain ⟨rfl, rfl⟩ := h
    exact hacc c hc
  | cons p rest ih =>
    intro ks48 cs48 ks' cs' hacc hp h c hc
    obtain ⟨k0, c0⟩ := p
    simp only [grow16to48Loop] at h
    split at h
    · exact absurd h (by simp)
    · next slot hE =>
      refine ih _ _ _ _ ?_ (fun q hq => hp q (List.mem_cons_of_mem _ hq)) h c hc
      intro x hx
      rcases List.mem_or_eq_of_mem_set hx with hx | hx
      · exact hacc x hx
      · have hx' : x = c0 := by simpa using hx
        rw [hx']
        exact hp (k0, c0) (List.mem_cons_self _ _)

/-- The NODE48 built by a successful `growFromNode16toNode48` population
keeps `AllLeaf`. -/
theorem grow16to48_result_allLeaf {P : List Int → Prop} {ks : List Int}
    {cs : List Node} {ks48 : List Nat} {cs48 : List (Option Node)}
    {pfx : List Int} {plen : Int}
    (hcs : ∀ c ∈ cs, AllLeaf P c)
    (hloop : grow16to48Loop (ks.zip cs) (List.replicate 256 255)
      (List.replicate 48 none) = some (ks48, cs48)) :
    AllLeaf P (Node.node48 pfx plen ks48 cs48) := by
  refine AllLeaf.node48 _ _ _ _ ?_
  intro c hc
  rcases List.mem_filterMap.mp hc with ⟨x, hx, hid⟩
  cases x with
  | none => exact absurd hid (by simp)
  | some y =>
    have hyc : (some y : Option Node) = some c := by simpa using hid
    rw [hyc] at hx
    refine grow16to48Loop_allLeaf (ks.zip cs) _ _ _ _ ?_ ?_ hloop c hx
    · intro z hz
      exact absurd (List.eq_of_mem_replicate hz) (by simp)
    · intro q hq
      exact hcs q.2 (List.of_mem_zip hq).2

/-- A successful `grow` keeps `AllLeaf` on its returned node. -/
theorem grow_fst_allLeaf {P : List Int → Prop} {n m : Node}
    (hA : AllLeaf P n) (h : (grow true n).1 = some m) : AllLeaf P m := by
  cases n with
  | leaf hp hpl k v => exact absurd h (by simp [grow])
  | node4 pfx plen ks cs =>
    obtain rfl : m = Node.node16 (pfx.take plen.toNat) plen ks cs := by
      simpa [grow, growFromNode4toNode16P] using h.symm
    cases hA with
    | node4 _ _ _ _ hcs => exact AllLeaf.node16 _ _ _ _ hcs
  | node16 pfx plen ks cs =>
    simp only [grow, growFromNode16toNode48P] at h
    split at h
    · exact absurd h (by simp)
    · next ks48 cs48 hloop =>
      obtain rfl : m = Node.node48 (pfx.take plen.toNat) plen ks48 cs48 := by
        simpa using h.symm
      cases hA with
      | node16 _ _ _ _ hcs => exact grow16to48_result_allLeaf hcs hloop
  | node48 pfx plen ks cs =>
    simp only [grow, growFromNode48toNode256] at h
    obtain rfl : m = Node.node256 (pfx.take plen.toNat) plen
        ((List.range 256).map (fun i =>
          if ks.getD i 255 ≠ 255 then cs.getD (ks.getD i 255) none else none)) := by
      simpa using h.symm
    cases hA with
    | node48 _ _ _ _ hcs =>
      refine AllLeaf.node256 _ _ _ ?_
      intro c hc
      rcases List.mem_filterMap.mp hc with ⟨x, hx, hid⟩
      cases x with
      | none => exact absurd hid (by simp)
      | some y =>
        have hyc : (some y : Option Node) = some c := by simpa using hid
        rw [hyc] at hx
        rcases List.mem_map.mp hx with ⟨i, _, hfi⟩
        by_cases hks : ks.getD i 255 ≠ 255
        · rw [if_pos hks] at hfi
          rw [List.getD_eq_getElem?_getD] at hfi
          cases hg : cs[(ks.getD i 255)]? with
          | none => rw [hg] at hfi; exact absurd hfi (by simp)
          | some z =>
            rw [hg] at hfi
            simp only [Option.getD_some] at hfi
            subst hfi
            exact hcs c (List.mem_filterMap.mpr ⟨some c, List.getElem?_mem hg, rfl⟩)
        · rw [if_neg hks] at hfi
          exact absurd hfi (by simp)
  | node256 pfx plen cs => exact absurd h (by simp [grow])

/-- `grow` with a successful allocation keeps `AllLeaf` on the final
`*node` value. -/
theorem grow_snd_allLeaf {P : List Int → Prop} {n : Node}
    (hA : AllLeaf P n) : AllLeaf P (grow true n).2 := by
  cases n with
  | leaf hp hpl k v => exact hA
  | node4 pfx plen ks cs =>
    cases hA with
    | node4 _ _ _ _ hcs => exact AllLeaf.node16 _ _ _ _ hcs
  | node16 pfx plen ks cs =>
    show AllLeaf P (growFromNode16toNode48P true (.node16 pfx plen ks cs)).2
    cases hloop : grow16to48Loop (ks.zip cs) (List.replicate 256 255)
        (List.replicate 48 none) with
    | none =>
      rw [show (growFromNode16toNode48P true (.node16 pfx plen ks cs)).2
          = (match grow16to48Loop (ks.zip cs) (List.replicate 256 255)
              (List.replicate 48 none) with
             | none => ((none : Option Node), Node.node16 pfx plen ks cs)
             | some (ks48, cs48) =>
               (some (Node.node48 (pfx.take plen.toNat) plen ks48 cs48),
                Node.node48 (pfx.take plen.toNat) plen ks48 cs48)).2 from rfl, hloop]
      exact hA
    | some r =>
      obtain ⟨ks48, cs48⟩ := r
      rw [show (growFromNode16toNode48P true (.node16 pfx plen ks cs)).2
          = (match grow16to48Loop (ks.zip cs) (List.replicate 256 255)
              (List.replicate 48 none) with
             | none => ((none : Option Node), Node.node16 pfx plen ks cs)
             | some (ks48, cs48) =>
               (some (Node.node48 (pfx.take plen.toNat) plen ks48 cs48),
                Node.node48 (pfx.take plen.toNat) plen ks48 cs48)).2 from rfl, hloop]
      cases hA with
      | node16 _ _ _ _ hcs => exact grow16to48_result_allLeaf hcs hloop
  | node48 pfx plen ks cs => exact hA
  | node256 pfx plen cs => exact hA


/-- Every element of an `insertAt`-extended child list satisfies
`AllLeaf` when the old children and the new child do. -/
theorem allLeaf_insertAt {P : List Int → Prop} {cs : List Node} {c : Node} {i : Nat}
    (hcs : ∀ x ∈ cs, AllLeaf P x) (hc : AllLeaf P c) :
    ∀ x ∈ insertAt cs i c, AllLeaf P x := by
  intro x hx
  rcases mem_insertAt hx with hx | hx
  · exact hcs x hx
  · rw [hx]; exact hc

/-- Every occupied slot of a `set`-extended optional child list
satisfies `AllLeaf` when the old occupants and the new child do. -/
theorem allLeaf_set_some {P : List Int → Prop} {cs : List (Option Node)} {c : Node}
    {i : Nat} (hcs : ∀ x ∈ cs.filterMap id, AllLeaf P x) (hc : AllLeaf P c) :
    ∀ x ∈ (cs.set i (some c)).filterMap id, AllLeaf P x := by
  intro x hx
  rcases List.mem_filterMap.mp hx with ⟨y, hy, hid⟩
  rcases List.mem_or_eq_of_mem_set hy with hy | hy
  · exact hcs x (List.mem_filterMap.mpr ⟨y, hy, hid⟩)
  · rw [hy] at hid
    have : x = c := by simpa using hid.symm
    rw [this]; exact hc

/-- `addChild` keeps `AllLeaf` when the parent and new child satisfy it
(any fuel). -/
theorem addChild_allLeaf {P : List Int → Prop} :
    ∀ (fuel : Nat) (parent : Node) (b : Int) (c : Node),
      AllLeaf P parent → AllLeaf P c → AllLeaf P (addChild fuel parent b c) := by
  intro fuel
  induction fuel with
  | zero => intro parent b c hp hc; exact hp
  | succ f ih =>
    intro parent b c hp hc
    cases parent with
    | leaf hl hpl k v => exact hp
    | node4 pfx plen ks cs =>
      rw [show addChild (f + 1) (Node.node4 pfx plen ks cs) b c
          = (if ks.length < 4 then
              Node.node4 pfx plen
                (insertAt ks ((ks.takeWhile (fun k => decide (k < b))).length) b)
                (insertAt cs ((ks.takeWhile (fun k => decide (k < b))).length) c)
            else addChild f (grow true (Node.node4 pfx plen ks cs)).2 b c) from rfl]
      split
      · cases hp with
        | node4 _ _ _ _ hcs => exact AllLeaf.node4 _ _ _ _ (allLeaf_insertAt hcs hc)
      · exact ih _ b c (grow_snd_allLeaf hp) hc
    | node16 pfx plen ks cs =>
      rw [show addChild (f + 1) (Node.node16 pfx plen ks cs) b c
          = (if ks.length < 16 then
              Node.node16 pfx plen
                (insertAt ks ((ks.takeWhile (fun k => decide (k < b))).length) b)
                (insertAt cs ((ks.takeWhile (fun k => decide (k < b))).length) c)
            else
              match (grow true (Node.node16 pfx plen ks cs)).1 with
              | none => Node.node16 pfx plen ks cs
              | some grown => addChild f grown b c) from rfl]
      split
      · cases hp with
        | node16 _ _ _ _ hcs => exact AllLeaf.node16 _ _ _ _ (allLeaf_insertAt hcs hc)
      · split
        · exact hp
        · next g hg => exact ih g b c (grow_fst_allLeaf hp hg) hc
    | node48 pfx plen ks cs =>
      rw [show addChild (f + 1) (Node.node48 pfx plen ks cs) b c
          = (if ks.getD (uByte b).toNat 255 ≠ 255 then
              match findEmptyIndexForChildren cs with
              | some slot =>
                Node.node48 pfx plen (ks.set (uByte b).toNat slot) (cs.set slot (some c))
              | none => addChild f (grow true (Node.node48 pfx plen ks cs)).2 b c
            else
              Node.node48 pfx plen ks
                (cs.set (ks.getD (uByte b).toNat 255) (some c))) from rfl]
      split
      · split
        · cases hp with
          | node48 _ _ _ _ hcs => exact AllLeaf.node48 _ _ _ _ (allLeaf_set_some hcs hc)
        · exact ih _ b c (grow_snd_allLeaf hp) hc
      · cases hp with
        | node48 _ _ _ _ hcs => exact AllLeaf.node48 _ _ _ _ (allLeaf_set_some hcs hc)
    | node256 pfx plen cs =>
      rw [show addChild (f + 1) (Node.node256 pfx plen cs) b c
          = (if (cs.getD (uByte b).toNat none).isNone then
              Node.node256 pfx plen (cs.set (uByte b).toNat (some c))
            else Node.node256 pfx plen cs) from rfl]
      split
      · cases hp with
        | node256 _ _ _ hcs => exact AllLeaf.node256 _ _ _ (allLeaf_set_some hcs hc)
      · exact hp

/-- `addChildToNode4` keeps `AllLeaf` when the parent and new child
satisfy it. -/
theorem addChildToNode4_allLeaf {P : List Int → Prop} (fuel : Nat) (parent : Node)
    (b : Int) (c : Node) (hp : AllLeaf P parent) (hc : AllLeaf P c) :
    AllLeaf P (addChildToNode4 fuel parent b c) := by
  cases parent with
  | node4 pfx plen ks cs =>
    rw [show addChildToNode4 fuel (Node.node4 pfx plen ks cs) b c
        = (if ks.length < 4 then
            Node.node4 pfx plen
              (insertAt ks ((ks.takeWhile (fun k => decide (k < b))).length) b)
              (insertAt cs ((ks.takeWhile (fun k => decide (k < b))).length) c)
          else addChild fuel (grow true (Node.node4 pfx plen ks cs)).2 b c) from rfl]
    split
    · cases hp with
      | node4 _ _ _ _ hcs => exact AllLeaf.node4 _ _ _ _ (allLeaf_insertAt hcs hc)
    · exact addChild_allLeaf fuel _ b c (grow_snd_allLeaf hp) hc
  | leaf hl hpl k v => exact hp
  | node16 pfx plen ks cs => exact hp
  | node48 pfx plen ks cs => exact hp
  | node256 pfx plen cs => exact hp

/-- One unfolding step of the `insert` loop on an internal node. -/
theorem insertLoopF_internal_step (f : Nat) (n : Node) (key : List Int) (value : Val)
    (depth : Int) (ghp : List Int) (ghpl : Int) (hInt : isInternal n = true) :
    insertLoopF (f + 1) n key value depth ghp ghpl
      = if isNodeFull n then
          match (grow true n).1 with
          | none => some n
          | some grownNode => insertLoopF f grownNode key value depth ghp ghpl
        else some (addChild addFuel n (byteAt key depth)
          (makeLeafNode ghp ghpl key value)) := by
  cases n <;> first | rfl | simp [isInternal] at hInt

/-- The `insert` loop keeps `AllLeaf` when the inserted key satisfies
the predicate: every leaf of the resulting tree state is an old leaf or
stores the inserted key. -/
theorem insertLoopF_allLeaf {P : List Int → Prop} {key : List Int} (hPkey : P key) :
    ∀ (fuel : Nat) (n : Node), AllLeaf P n →
      ∀ (value : Val) (depth : Int) (ghp : List Int) (ghpl : Int),
        AllLeafOpt P (insertLoopF fuel n key value depth ghp ghpl) := by
  intro fuel
  induction fuel with
  | zero => intro n hA value depth ghp ghpl; exact hA
  | succ f ih =>
    intro n hA value depth ghp ghpl
    by_cases hInt : isInternal n = true
    · rw [insertLoopF_internal_step f n key value depth ghp ghpl hInt]
      split
      · split
        · exact hA
        · next g hg => exact ih g (grow_fst_allLeaf hA hg) value depth ghp ghpl
      · exact addChild_allLeaf addFuel n _ _ hA (AllLeaf.leaf _ _ _ _ hPkey)
    · cases n with
      | leaf hl hpl k v =>
        by_cases hk : k = key
        · rw [show insertLoopF (f + 1) (Node.leaf hl hpl k v) key value depth ghp ghpl
              = if k = key then some (Node.leaf hl hpl k v) else _ from rfl, if_pos hk]
          exact hA
        · rw [insertLoopF_leaf_split f hl ghp hpl ghpl depth k key v value hk]
          show AllLeaf P _
          refine addChildToNode4_allLeaf _ _ _ _ ?_ (AllLeaf.leaf _ _ _ _ hPkey)
          refine addChildToNode4_allLeaf _ _ _ _ ?_ hA
          exact AllLeaf.node4 _ _ _ _ (fun x hx => absurd hx (List.not_mem_nil x))
      | node4 pfx plen ks cs => exact absurd rfl hInt
      | node16 pfx plen ks cs => exact absurd rfl hInt
      | node48 pfx plen ks cs => exact absurd rfl hInt
      | node256 pfx plen cs => exact absurd rfl hInt

/-- `insert` keeps `AllLeaf` on the tree state when the inserted key
satisfies the predicate. -/
theorem insertRoot_allLeaf {P : List Int → Prop} {key : List Int} (hPkey : P key)
    {root : Option Node} (hA : AllLeafOpt P root) (value : Val) (depth : Int)
    (ghp : List Int) (ghpl : Int) :
    AllLeafOpt P (insertRoot root key value depth ghp ghpl) := by
  cases root with
  | none => exact AllLeaf.leaf _ _ _ _ hPkey
  | some n => exact insertLoopF_allLeaf hPkey insertLoopFuel n hA value depth ghp ghpl

/-- Folding a sequence of inserts over a state with the `AllLeaf`
invariant preserves it, when every inserted key satisfies the
predicate. -/
theorem insertSeq_foldl_allLeaf {P : List Int → Prop} :
    ∀ (ops : List InsOp) (acc : Option Node),
      AllLeafOpt P acc → (∀ op ∈ ops, P op.key) →
      AllLeafOpt P
        (ops.foldl (fun r op => insertRoot r op.key op.value 0 op.ghp op.ghpl) acc) := by
  intro ops
  induction ops with
  | nil => intro acc hA _; simpa using hA
  | cons op rest ih =>
    intro acc hA hP
    rw [List.foldl_cons]
    exact ih _ (insertRoot_allLeaf (hP op (List.mem_cons_self _ _)) hA op.value 0
      op.ghp op.ghpl) (fun q hq => hP q (List.mem_cons_of_mem _ hq))

/-- Claim C6: in a tree built by any sequence of `insert` calls, looking
up any key that was never inserted returns not-found (NULL), at every
recursion budget.  Every leaf the tree holds was materialized by
`makeLeafNode` from one of the inserted keys, and `search` answers
"found" only after `strcmp(leafNode->key, key) == 0`. -/
theorem C6_lookup_absent_returns_none (ops : List InsOp) (K : List Int) (fuel : Nat)
    (h : ∀ op ∈ ops, op.key ≠ K) :
    searchF fuel (insertSeq ops) K 0 = none := by
  have hA : AllLeafOpt (fun k => k ≠ K) (insertSeq ops) :=
    insertSeq_foldl_allLeaf ops none trivial h
  cases hS : insertSeq ops with
  | none => exact searchF_none_arg fuel K 0
  | some n =>
    refine search_allLeaf_ne fuel n K 0 ?_
    rw [hS] at hA
    exact hA

/-- Witness for C6: the literal scenario of the spec — insert `"test"`,
then look up `"tex"`; the lookup returns not-found. -/
theorem C6_lookup_absent_returns_none_witness :
    (∀ op ∈ ([⟨[116, 101, 115, 116], 1, [], 0⟩] : List InsOp),
      op.key ≠ [116, 101, 120]) ∧
    searchF 8 (insertSeq [⟨[116, 101, 115, 116], 1, [], 0⟩]) [116, 101, 120] 0
      = none :=
  ⟨by decide, C6_lookup_absent_returns_none _ _ 8 (by decide)⟩

end ARTC
